import Mathlib

/-!
Shallow embedding of the libcliparser command line option registry and parser
(namespace cliparser, files cliparser.h and the two cliparser.cpp revisions).

Conventions of the embedding:
- the C++ class CliParser becomes a Lean structure; the option dictionary
  (std::unordered_map from std::string to OptionBase pointer) becomes an
  association list in insertion order, with lookup returning the first match;
- OPTION_INFO is the byte sized bit field of the source, modelled as a Nat
  with the same bitwise arithmetic;
- std::string values are Lean String values; scanning of characters
  (string_view::find_first_of and pointer arithmetic) works on String.data;
- exceptions become an explicit error type threaded through Except, and the
  parse loop returns the final registry state together with an optional error,
  so that partial mutation before a failure stays observable, as in C++;
- reading argv at an index that is one past the end (argv of argc, which is a
  null pointer in a hosted C++ program and whose use here would be undefined
  behaviour) is modelled as the distinguished error indexOutOfBounds;
- the numeric conversions std::stoi, std::stol and std::stoll (external
  standard library collaborators) are modelled exactly: initial whitespace,
  optional sign, longest base ten digit prefix, with range checks;
- std::stof, std::stod and std::stold are modelled as an exact rational
  decimal parse (sign, digits, optional fraction, optional exponent); the
  IEEE 754 rounding step and the hexadecimal, infinity and nan spellings
  have no shallow embedding and are deliberately not modelled.
-/

namespace cliparser

/-- Modelled from the spec: the error taxonomy of libcliparser. The header
libcliparser/exceptions.h is not among the provided sources, only its users
are; each constructor mirrors one failure kind of spec section 4.3 and of the
exception classes named by the readme and the tests (NoSuchOptionException,
OptionRedefinitionError, BadOptionFormatError, MissingRequiredOptionsError,
BadOptionCastException, BadOptionAccessException, std::invalid_argument and
std::out_of_range thrown by the conversion routines). The extra constructor
indexOutOfBounds stands for the undefined read of argv at position argc. -/
inductive Err where
  | noSuchOption (opt : String)
  | optionRedefinition (opt : String)
  | badOptionFormat (opt : String)
  | missingRequiredOptions (opts : List String)
  | badOptionCast (opt : String)
  | badOptionAccess (opt : String)
  | invalidInput (detail : String)
  | outOfRange (detail : String)
  | indexOutOfBounds
deriving DecidableEq

/-- The closed set of types satisfying the CliParsableArgument concept:
int, long, long long, bool, float, double, long double, std::string. -/
inductive Kind where
  | tInt
  | tLong
  | tLongLong
  | tBool
  | tFloat
  | tDouble
  | tLongDouble
  | tString
deriving DecidableEq

/-- A stored option value, tagged by its kind. The integral kinds carry
mathematical integers (range checks happen at parse time, mirroring stoi,
stol and stoll); the floating kinds carry exact rationals, standing in for
the machine floating point values of the source. -/
inductive Value where
  | vInt (n : Int)
  | vLong (n : Int)
  | vLongLong (n : Int)
  | vBool (b : Bool)
  | vFloat (q : ℚ)
  | vDouble (q : ℚ)
  | vLongDouble (q : ℚ)
  | vString (s : String)
deriving DecidableEq

/-- The kind tag of a stored value; this plays the role of typeid of the
static template argument of Option, which in C++ always agrees with the
dynamic type of the stored member arg. -/
def kindOf : Value → Kind
  | .vInt _ => .tInt
  | .vLong _ => .tLong
  | .vLongLong _ => .tLongLong
  | .vBool _ => .tBool
  | .vFloat _ => .tFloat
  | .vDouble _ => .tDouble
  | .vLongDouble _ => .tLongDouble
  | .vString _ => .tString

/-- OPTION_INFO enumerator REQUIRED = 0x01. -/
def REQUIRED : Nat := 0x01

/-- OPTION_INFO enumerator OPTIONAL = 0x02. -/
def OPTIONAL : Nat := 0x02

/-- OPTION_INFO enumerator FLAG = 0x04 bitor OPTIONAL. -/
def FLAG : Nat := 0x04 ||| OPTIONAL

/-- OPTION_INFO enumerator SET_BY_USER = 0x08. -/
def SET_BY_USER : Nat := 0x08

/-- OPTION_INFO enumerator REQUIRED_PROVIDED_BY_USER. -/
def REQUIRED_PROVIDED_BY_USER : Nat := REQUIRED ||| SET_BY_USER

/-- OPTION_INFO enumerator OPTIONAL_OVERRIDEN_BY_USER. -/
def OPTIONAL_OVERRIDEN_BY_USER : Nat := OPTIONAL ||| SET_BY_USER

/-- OPTION_INFO enumerator FLAG_OVERRIDEN_BY_USER. -/
def FLAG_OVERRIDEN_BY_USER : Nat := FLAG ||| SET_BY_USER

/-- One option record: the OptionBase info byte and description together with
the typed value stored by the derived Option template (member arg). For a
REQUIRED record the C++ scalar member is uninitialized until the parser
assigns it; the embedding stores the zero value of the kind instead, which no
operation reads before it is overwritten, because good gates access. -/
structure OptionRecord where
  info : Nat
  descr : String
  value : Value
deriving DecidableEq

/-- OptionBase::good: the bitwise and of info with OPTIONAL_OVERRIDEN_BY_USER,
cast to bool. -/
def OptionRecord.good (r : OptionRecord) : Bool :=
  (r.info &&& OPTIONAL_OVERRIDEN_BY_USER) != 0

/-- OptionBase::isOptional: info bitand OPTIONAL, cast to bool. -/
def OptionRecord.isOptional (r : OptionRecord) : Bool :=
  (r.info &&& OPTIONAL) != 0

/-- OptionBase::isSetByUser: info bitand SET_BY_USER, cast to bool. -/
def OptionRecord.isSetByUser (r : OptionRecord) : Bool :=
  (r.info &&& SET_BY_USER) != 0

/-- OptionBase::isFlag: info bitand (FLAG xor OPTIONAL), cast to bool. -/
def OptionRecord.isFlag (r : OptionRecord) : Bool :=
  (r.info &&& (FLAG ^^^ OPTIONAL)) != 0

/-- Option::type, the kind tag of the stored value. -/
def OptionRecord.typeOf (r : OptionRecord) : Kind := kindOf r.value

/-- isspace of the C locale, used by the strtol family before conversion. -/
def isSpaceChar (c : Char) : Bool :=
  c == ' ' || c == '\t' || c == '\n' || c == '\x0b' || c == '\x0c' || c == '\r'

/-- Accumulate a base ten digit sequence into a natural number. -/
def digitsToNat (ds : List Char) : Nat :=
  ds.foldl (fun a c => a * 10 + (c.toNat - 48)) 0

/-- The longest base ten digit prefix, failing when it is empty (the strtol
family reports no conversion in that case). -/
def parseDigits (cs : List Char) : Option Nat :=
  let ds := cs.takeWhile Char.isDigit
  if ds.isEmpty then none else some (digitsToNat ds)

/-- The conversion performed by the strtol family in base ten: skip initial
whitespace, read an optional sign, then the longest digit prefix. -/
def parseIntCore (cs : List Char) : Option Int :=
  let cs1 := cs.dropWhile isSpaceChar
  match cs1 with
  | '-' :: r => (parseDigits r).map (fun n => -(n : Int))
  | '+' :: r => (parseDigits r).map (fun n => (n : Int))
  | _ => (parseDigits cs1).map (fun n => (n : Int))

/-- std::stoi, std::stol, std::stoll: strtol conversion followed by a range
check; no digits raise std::invalid_argument and an out of range value raises
std::out_of_range, both carrying the function name. -/
def parseIntRange (lo hi : Int) (fname : String) (input : String) : Except Err Int :=
  match parseIntCore input.data with
  | none => .error (.invalidInput fname)
  | some n => if n < lo ∨ hi < n then .error (.outOfRange fname) else .ok n

/-- Model of std::stof, std::stod and std::stold: skip whitespace, optional
sign, digits with an optional fraction part and an optional exponent part,
read as an exact rational. The rounding to a machine float is not modelled,
nor are the hexadecimal, infinity and nan spellings. -/
def parseRatModel (fname : String) (input : String) : Except Err ℚ :=
  let cs := input.data.dropWhile isSpaceChar
  let sgn : ℚ × List Char :=
    match cs with
    | '-' :: r => (-1, r)
    | '+' :: r => (1, r)
    | _ => (1, cs)
  let ip := sgn.2.takeWhile Char.isDigit
  let cs2 := sgn.2.dropWhile Char.isDigit
  let fpRest : List Char × List Char :=
    match cs2 with
    | '.' :: r => (r.takeWhile Char.isDigit, r.dropWhile Char.isDigit)
    | _ => ([], cs2)
  if ip.isEmpty && fpRest.1.isEmpty then .error (.invalidInput fname)
  else
    let mant : ℚ := sgn.1 * ((digitsToNat (ip ++ fpRest.1) : ℚ) / (10 : ℚ) ^ fpRest.1.length)
    match fpRest.2 with
    | 'e' :: r =>
      let es : Int × List Char :=
        match r with
        | '-' :: r2 => (-1, r2)
        | '+' :: r2 => (1, r2)
        | _ => (1, r)
      let eds := es.1 * (digitsToNat (es.2.takeWhile Char.isDigit) : Int)
      if (es.2.takeWhile Char.isDigit).isEmpty then .ok mant
      else .ok (mant * (10 : ℚ) ^ eds)
    | 'E' :: r =>
      let es : Int × List Char :=
        match r with
        | '-' :: r2 => (-1, r2)
        | '+' :: r2 => (1, r2)
        | _ => (1, r)
      let eds := es.1 * (digitsToNat (es.2.takeWhile Char.isDigit) : Int)
      if (es.2.takeWhile Char.isDigit).isEmpty then .ok mant
      else .ok (mant * (10 : ℚ) ^ eds)
    | _ => .ok mant

/-- The case fold of CliParser::parseArg for bool: add 32 to every character
between A and Z. -/
def toLowerAscii (s : String) : String :=
  String.mk (s.data.map (fun c => if 'A' ≤ c ∧ c ≤ 'Z' then Char.ofNat (c.toNat + 32) else c))

/-- CliParser::parseArg for bool: lowercase the input and compare it with
y, true, n and false; anything else raises std::invalid_argument with the
message used by the source. -/
def parseBoolArg (input : String) : Except Err Bool :=
  let lower := toLowerAscii input
  if lower = "y" || lower = "true" then .ok true
  else if lower = "n" || lower = "false" then .ok false
  else .error (.invalidInput "invalid bool argument")

/-- Lower bound of int on the target platform. -/
def intMin : Int := -(2 ^ 31)

/-- Upper bound of int on the target platform. -/
def intMax : Int := 2 ^ 31 - 1

/-- Lower bound of long and long long on the target platform. -/
def longMin : Int := -(2 ^ 63)

/-- Upper bound of long and long long on the target platform. -/
def longMax : Int := 2 ^ 63 - 1

/-- CliParser::parseArg, dispatched on the kind of the record (in C++ the
dispatch is the template specialisation chosen by the static type of the
Option): stoi, stol, stoll for the integral kinds, the stof family model for
the floating kinds, the string constructor for text, and the case folding
comparison for bool. -/
def parseArg (k : Kind) (input : String) : Except Err Value :=
  match k with
  | .tInt => (parseIntRange intMin intMax "stoi" input).map .vInt
  | .tLong => (parseIntRange longMin longMax "stol" input).map .vLong
  | .tLongLong => (parseIntRange longMin longMax "stoll" input).map .vLongLong
  | .tBool => (parseBoolArg input).map .vBool
  | .tFloat => (parseRatModel "stof" input).map .vFloat
  | .tDouble => (parseRatModel "stod" input).map .vDouble
  | .tLongDouble => (parseRatModel "stold" input).map .vLongDouble
  | .tString => .ok (.vString input)

/-- Option::setArgFromInput: parse the input at the kind of the record, store
it in arg and add SET_BY_USER to info. When the parse routine throws, the
record is left untouched, which the Except error models. -/
def OptionRecord.setArgFromInput (r : OptionRecord) (input : String) : Except Err OptionRecord :=
  match parseArg r.typeOf input with
  | .error e => .error e
  | .ok v => .ok { r with value := v, info := r.info ||| SET_BY_USER }

/-- The CliParser class state: application name, resolved executable path,
description, version and the option dictionary (an unordered_map in C++,
embedded as an association list in insertion order). -/
structure CliParser where
  appName : String
  executablePath : String
  descr : String
  ver : String
  cliOptions : List (String × OptionRecord)
deriving DecidableEq

/-- The CliParser constructor: stores the application name, description and
version; executablePath starts empty and the dictionary starts empty. -/
def mkCliParser (program description version : String) : CliParser :=
  ⟨program, "", description, version, []⟩

/-- unordered_map::find, first match in the association list. -/
def findOpt (key : String) : List (String × OptionRecord) → Option OptionRecord
  | [] => none
  | (k, r) :: rest => if k = key then some r else findOpt key rest

/-- unordered_map::insert_or_assign: replace the record of an existing key in
place, otherwise append the new entry. -/
def insertOrAssign (key : String) (rec : OptionRecord) :
    List (String × OptionRecord) → List (String × OptionRecord)
  | [] => [(key, rec)]
  | (k, r) :: rest =>
    if k = key then (key, rec) :: rest else (k, r) :: insertOrAssign key rec rest

/-- CliParser::hasOption: unordered_map::contains. -/
def CliParser.hasOption (p : CliParser) (opt : String) : Bool :=
  (findOpt opt p.cliOptions).isSome

/-- CliParser::getOption: look the option up (NoSuchOptionException when it is
absent, from _getOptionIterator), then fail with BadOptionAccessException when
the record is not good, then with BadOptionCastException when the requested
kind differs from the stored kind, and otherwise return a copy of the stored
value. The registry is not touched (the C++ member function is const). -/
def CliParser.getOption (p : CliParser) (k : Kind) (opt : String) : Except Err Value :=
  match findOpt opt p.cliOptions with
  | none => .error (.noSuchOption opt)
  | some rec =>
    if !rec.good then .error (.badOptionAccess opt)
    else if rec.typeOf != k then .error (.badOptionCast opt)
    else .ok rec.value

/-- CliParser::isOptionOptional. -/
def CliParser.isOptionOptional (p : CliParser) (opt : String) : Except Err Bool :=
  match findOpt opt p.cliOptions with
  | none => .error (.noSuchOption opt)
  | some rec => .ok rec.isOptional

/-- CliParser::isOptionSetByUser. -/
def CliParser.isOptionSetByUser (p : CliParser) (opt : String) : Except Err Bool :=
  match findOpt opt p.cliOptions with
  | none => .error (.noSuchOption opt)
  | some rec => .ok rec.isSetByUser

/-- CliParser::isOptionFlag. -/
def CliParser.isOptionFlag (p : CliParser) (opt : String) : Except Err Bool :=
  match findOpt opt p.cliOptions with
  | none => .error (.noSuchOption opt)
  | some rec => .ok rec.isFlag

/-- The character class checked by _preliminaryCheckOptionForProblems, namely
find_first_of of the two character string holding the equals sign and the
space. -/
def hasBadFormatChar (opt : String) : Bool :=
  opt.data.any (fun c => c == '=' || c == ' ')

/-- CliParser::_preliminaryCheckOptionForProblems: OptionRedefinitionError
when the option already exists, then BadOptionFormatError when the name
contains the equals sign or a space. -/
def CliParser.preliminaryCheckOptionForProblems (p : CliParser) (opt : String) : Option Err :=
  if p.hasOption opt then some (.optionRedefinition opt)
  else if hasBadFormatChar opt then some (.badOptionFormat opt)
  else none

/-- The zero value of a kind, standing for the default constructed member arg
of a REQUIRED option (uninitialized for the scalar kinds in C++, empty for
std::string; nothing reads it before the parser overwrites it). -/
def zeroValue : Kind → Value
  | .tInt => .vInt 0
  | .tLong => .vLong 0
  | .tLongLong => .vLongLong 0
  | .tBool => .vBool false
  | .tFloat => .vFloat 0
  | .tDouble => .vDouble 0
  | .tLongDouble => .vLongDouble 0
  | .tString => .vString ""

/-- The required form of CliParser::option: run the preliminary check, then
insert a REQUIRED record. -/
def CliParser.optionRequired (p : CliParser) (k : Kind) (opt description : String) :
    Except Err CliParser :=
  match p.preliminaryCheckOptionForProblems opt with
  | some e => .error e
  | none =>
    .ok { p with cliOptions := insertOrAssign opt ⟨REQUIRED, description, zeroValue k⟩ p.cliOptions }

/-- The defaulted form of CliParser::option: run the preliminary check, then
insert an OPTIONAL record holding the default value (whose kind is the static
type deduced from the default argument in C++). -/
def CliParser.optionWithDefault (p : CliParser) (opt description : String) (defaultValue : Value) :
    Except Err CliParser :=
  match p.preliminaryCheckOptionForProblems opt with
  | some e => .error e
  | none =>
    .ok { p with cliOptions := insertOrAssign opt ⟨OPTIONAL, description, defaultValue⟩ p.cliOptions }

/-- CliParser::flag: only the redefinition check is performed (the format
check of the preliminary routine is not run by the source), then a FLAG
record with value false is inserted. -/
def CliParser.flag (p : CliParser) (opt description : String) : Except Err CliParser :=
  if p.hasOption opt then .error (.optionRedefinition opt)
  else .ok { p with cliOptions := insertOrAssign opt ⟨FLAG, description, .vBool false⟩ p.cliOptions }

/-- Token scanning: whether the token holds an equals sign, mirroring
string_view::find_first_of returning a position distinct from npos. -/
def strContainsEq (s : String) : Bool :=
  s.data.any (fun c => c == '=')

/-- The key part of a token holding an equals sign: the prefix before the
first equals sign. -/
def keyOf (s : String) : String :=
  String.mk (s.data.takeWhile (fun c => c != '='))

/-- The inline value of a token holding an equals sign: everything after the
first equals sign (pointer arithmetic argv of i plus pos plus one). -/
def valueAfterEq (s : String) : String :=
  String.mk ((s.data.dropWhile (fun c => c != '=')).drop 1)

/-- The message of the std::invalid_argument raised when a value is assigned
to a flag with the equals sign (ANSI colour escapes kept, the quotes around
the equals sign dropped). -/
def flagAssignMsg : String :=
  "\x1b[1;31merror: invalid input\x1b[0m. Attempted to assign a value to a flag with ="

/-- Result of one iteration of the parse loop: either continue at a new index
with a new registry state, or stop the whole parse with an error, keeping the
registry state reached so far. -/
inductive StepRes where
  | next (reg : CliParser) (i : Nat)
  | fail (reg : CliParser) (e : Err)
deriving DecidableEq

/-- One iteration of the while loop of CliParser::parse in the current
revision (src/unnamed/part_000): split tokens at the first equals sign, look
the key up, reject assignment to flags, set bare flags to true without
consuming a following token, and otherwise consume the next token as the raw
value. Reading past the end of the argument vector (argv at argc) is the
fail case indexOutOfBounds. -/
def scanStep (args : List String) (ign : Bool) (reg : CliParser) (i : Nat) : StepRes :=
  match args[i]? with
  | none => .fail reg .indexOutOfBounds
  | some tok =>
    if strContainsEq tok then
      match findOpt (keyOf tok) reg.cliOptions with
      | none =>
        if !ign then .fail reg (.noSuchOption (keyOf tok)) else .next reg (i + 1)
      | some rec =>
        if rec.isFlag then .fail reg (.invalidInput flagAssignMsg)
        else
          match rec.setArgFromInput (valueAfterEq tok) with
          | .error e => .fail reg e
          | .ok rec2 => .next { reg with cliOptions := insertOrAssign (keyOf tok) rec2 reg.cliOptions } (i + 1)
    else
      match findOpt tok reg.cliOptions with
      | none =>
        if !ign then .fail reg (.noSuchOption tok) else .next reg (i + 1)
      | some rec =>
        if rec.isFlag then
          .next { reg with cliOptions := insertOrAssign tok { rec with info := FLAG_OVERRIDEN_BY_USER, value := .vBool true } reg.cliOptions } (i + 1)
        else
          match args[i + 1]? with
          | none => .fail reg .indexOutOfBounds
          | some raw =>
            match rec.setArgFromInput raw with
            | .error e => .fail reg e
            | .ok rec2 => .next { reg with cliOptions := insertOrAssign tok rec2 reg.cliOptions } (i + 2)

/-- One iteration of the while loop of the older CliParser::parse revision
(src/libcliparser/cliparser.cpp): identical to scanStep except that there is
no flag handling at all: a key found in a token with an equals sign is always
assigned through setArgFromInput, and a bare known token always consumes the
following token as its raw value, flags included. -/
def scanStepOld (args : List String) (ign : Bool) (reg : CliParser) (i : Nat) : StepRes :=
  match args[i]? with
  | none => .fail reg .indexOutOfBounds
  | some tok =>
    if strContainsEq tok then
      match findOpt (keyOf tok) reg.cliOptions with
      | none =>
        if !ign then .fail reg (.noSuchOption (keyOf tok)) else .next reg (i + 1)
      | some rec =>
        match rec.setArgFromInput (valueAfterEq tok) with
        | .error e => .fail reg e
        | .ok rec2 => .next { reg with cliOptions := insertOrAssign (keyOf tok) rec2 reg.cliOptions } (i + 1)
    else
      match findOpt tok reg.cliOptions with
      | none =>
        if !ign then .fail reg (.noSuchOption tok) else .next reg (i + 1)
      | some rec =>
        match args[i + 1]? with
        | none => .fail reg .indexOutOfBounds
        | some raw =>
          match rec.setArgFromInput raw with
          | .error e => .fail reg e
          | .ok rec2 => .next { reg with cliOptions := insertOrAssign tok rec2 reg.cliOptions } (i + 2)

/-- The while loop of the current CliParser::parse with explicit fuel: run
scanStep until the index leaves the argument vector or a step fails. One unit
of fuel is spent per iteration; the zero fuel fallback is unreachable from
scanFrom because every iteration advances the index (proved below through the
fuel adequacy theorem). -/
def scanFromFuel : Nat → List String → Bool → CliParser → Nat → CliParser × Option Err
  | 0, _, _, reg, _ => (reg, none)
  | n + 1, args, ign, reg, i =>
    if i < args.length then
      match scanStep args ign reg i with
      | .next reg2 i2 => scanFromFuel n args ign reg2 i2
      | .fail reg2 e => (reg2, some e)
    else (reg, none)

/-- The while loop of the current CliParser::parse, by index, with a fuel
supply that is always sufficient. -/
def scanFrom (args : List String) (ign : Bool) (reg : CliParser) (i : Nat) :
    CliParser × Option Err :=
  scanFromFuel (args.length + 1) args ign reg i

/-- The while loop of the older CliParser::parse revision with explicit
fuel. -/
def scanFromFuelOld : Nat → List String → Bool → CliParser → Nat → CliParser × Option Err
  | 0, _, _, reg, _ => (reg, none)
  | n + 1, args, ign, reg, i =>
    if i < args.length then
      match scanStepOld args ign reg i with
      | .next reg2 i2 => scanFromFuelOld n args ign reg2 i2
      | .fail reg2 e => (reg2, some e)
    else (reg, none)

/-- The while loop of the older CliParser::parse revision, by index. -/
def scanFromOld (args : List String) (ign : Bool) (reg : CliParser) (i : Nat) :
    CliParser × Option Err :=
  scanFromFuelOld (args.length + 1) args ign reg i

/-- The names collected by the completeness check after the scan: keys of
every record whose good is false. -/
def requiredUnsetNames (p : CliParser) : List String :=
  (p.cliOptions.filter (fun kv => !kv.2.good)).map (fun kv => kv.1)

/-- CliParser::parse of the current revision (src/unnamed/part_000): do
nothing on an empty vector, otherwise store token zero as executablePath,
scan from token one, and unless the scan failed or the check is suppressed,
collect the names of records that are still not good and raise the aggregate
MissingRequiredOptionsError when there are any. -/
def CliParser.parse : CliParser → List String → Bool → Bool → CliParser × Option Err
  | p, [], _, _ => (p, none)
  | p, a :: rest, ignoreUnknownOptions, suppressMissingRequiredOptionsError =>
    let res := scanFrom (a :: rest) ignoreUnknownOptions { p with executablePath := a } 1
    match res.2 with
    | some _ => res
    | none =>
      if suppressMissingRequiredOptionsError then res
      else
        let missing := requiredUnsetNames res.1
        if missing.isEmpty then res else (res.1, some (.missingRequiredOptions missing))

/-- CliParser::parse of the older revision: same surrounding logic as the
current one, around the older loop body. -/
def parseOld : CliParser → List String → Bool → Bool → CliParser × Option Err
  | p, [], _, _ => (p, none)
  | p, a :: rest, ignoreUnknownOptions, suppressMissingRequiredOptionsError =>
    let res := scanFromOld (a :: rest) ignoreUnknownOptions { p with executablePath := a } 1
    match res.2 with
    | some _ => res
    | none =>
      if suppressMissingRequiredOptionsError then res
      else
        let missing := requiredUnsetNames res.1
        if missing.isEmpty then res else (res.1, some (.missingRequiredOptions missing))

/-- A registry with no flag record at all. -/
def flagFree (p : CliParser) : Bool :=
  p.cliOptions.all (fun kv => !kv.2.isFlag)

/-- The scan passes through a sequence of states: reflexive transitive
closure of continuing steps that start inside the argument vector. -/
inductive ScanReaches (args : List String) (ign : Bool) :
    CliParser → Nat → CliParser → Nat → Prop where
  | refl (reg : CliParser) (i : Nat) : ScanReaches args ign reg i reg i
  | step {reg : CliParser} {i : Nat} {reg2 : CliParser} {i2 : Nat} {reg3 : CliParser} {i3 : Nat}
      (h : i < args.length) (hs : scanStep args ign reg i = .next reg2 i2)
      (ht : ScanReaches args ign reg2 i2 reg3 i3) : ScanReaches args ign reg i reg3 i3

/-- Concrete registry for evaluation: one flag named -v, as built by flag. -/
def regFlagDemo : CliParser :=
  ⟨"app", "", "demo", "1.0", [("-v", ⟨FLAG, "verbose", .vBool false⟩)]⟩

/-- Concrete registry for evaluation: one required int option named -n, as
built by the required form of option. -/
def regIntDemo : CliParser :=
  ⟨"app", "", "demo", "1.0", [("-n", ⟨REQUIRED, "number", .vInt 0⟩)]⟩

/-- Case analysis of scanStep: every step either fails keeping the registry,
or skips the token keeping the registry, or rewrites exactly one key of the
dictionary, either through setArgFromInput on a record that is not a flag, or
through the bare flag branch on the token itself. -/
theorem scanStep_cases (args : List String) (ign : Bool) (reg : CliParser) (i : Nat) :
    (∃ e, scanStep args ign reg i = .fail reg e) ∨
    (scanStep args ign reg i = .next reg (i + 1)) ∨
    (∃ k rec rec2 di, findOpt k reg.cliOptions = some rec ∧ (di = 1 ∨ di = 2) ∧
      scanStep args ign reg i = .next { reg with cliOptions := insertOrAssign k rec2 reg.cliOptions } (i + di) ∧
      ((rec.isFlag = false ∧ ∃ inp, rec.setArgFromInput inp = .ok rec2) ∨
       (rec.isFlag = true ∧ args[i]? = some k ∧
        rec2 = { rec with info := FLAG_OVERRIDEN_BY_USER, value := Value.vBool true }))) := by
  unfold scanStep
  cases hg : args[i]? with
  | none => exact Or.inl ⟨_, rfl⟩
  | some tok =>
    cases hc : strContainsEq tok with
    | true =>
      simp only [hc, if_true]
      cases hf : findOpt (keyOf tok) reg.cliOptions with
      | none =>
        cases ign
        · exact Or.inl ⟨_, rfl⟩
        · exact Or.inr (Or.inl rfl)
      | some rec =>
        cases hfl : rec.isFlag with
        | true =>
          simp only [hfl, if_true]
          exact Or.inl ⟨_, rfl⟩
        | false =>
          simp only [hfl, if_false]
          cases hset : rec.setArgFromInput (valueAfterEq tok) with
          | error e => exact Or.inl ⟨e, by simp [hset]⟩
          | ok rec2 =>
            exact Or.inr (Or.inr ⟨keyOf tok, rec, rec2, 1, hf, Or.inl rfl, by simp [hset], Or.inl ⟨hfl, _, hset⟩⟩)
    | false =>
      simp only [hc, if_false]
      cases hf : findOpt tok reg.cliOptions with
      | none =>
        cases ign
        · exact Or.inl ⟨_, rfl⟩
        · exact Or.inr (Or.inl rfl)
      | some rec =>
        cases hfl : rec.isFlag with
        | true =>
          simp only [hfl, if_true]
          exact Or.inr (Or.inr ⟨tok, rec, _, 1, hf, Or.inl rfl, rfl, Or.inr ⟨hfl, rfl, rfl⟩⟩)
        | false =>
          simp only [hfl, if_false]
          cases hn : args[i + 1]? with
          | none => exact Or.inl ⟨_, rfl⟩
          | some raw =>
            cases hset : rec.setArgFromInput raw with
            | error e => exact Or.inl ⟨e, by simp [hset]⟩
            | ok rec2 =>
              exact Or.inr (Or.inr ⟨tok, rec, rec2, 2, hf, Or.inr rfl, by simp [hset], Or.inl ⟨hfl, _, hset⟩⟩)

/-- A continuing step always advances the index. -/
theorem scanStep_next_gt {args : List String} {ign : Bool} {reg : CliParser} {i : Nat}
    {reg2 : CliParser} {i2 : Nat} (h : scanStep args ign reg i = .next reg2 i2) : i < i2 := by
  rcases scanStep_cases args ign reg i with ⟨e, he⟩ | hn | ⟨k, rec, rec2, di, _, hdi, hs, _⟩
  · rw [h] at he
    exact absurd he (by simp)
  · rw [h] at hn
    injection hn with h1 h2
    omega
  · rw [h] at hs
    injection hs with h1 h2
    rcases hdi with h3 | h3 <;> omega

/-- A failing step keeps the registry unchanged. -/
theorem scanStep_fail_reg {args : List String} {ign : Bool} {reg : CliParser} {i : Nat}
    {reg2 : CliParser} {e : Err} (h : scanStep args ign reg i = .fail reg2 e) : reg2 = reg := by
  rcases scanStep_cases args ign reg i with ⟨e3, he⟩ | hn | ⟨k, rec, rec2, di, _, _, hs, _⟩
  · rw [h] at he
    simp only [StepRes.fail.injEq] at he
    exact he.1
  · rw [h] at hn
    exact absurd hn (by simp)
  · rw [h] at hs
    exact absurd hs (by simp)

/-- A continuing step only touches the option dictionary. -/
theorem scanStep_next_exec {args : List String} {ign : Bool} {reg : CliParser} {i : Nat}
    {reg2 : CliParser} {i2 : Nat} (h : scanStep args ign reg i = .next reg2 i2) :
    reg2.executablePath = reg.executablePath := by
  rcases scanStep_cases args ign reg i with ⟨e, he⟩ | hn | ⟨k, rec, rec2, di, _, _, hs, _⟩
  · rw [h] at he
    exact absurd he (by simp)
  · rw [h] at hn
    injection hn with h1 h2
    rw [h1]
  · rw [h] at hs
    injection hs with h1 h2
    rw [h1]

/-- Lookup after insert_or_assign at the same key. -/
theorem findOpt_insertOrAssign_self (k : String) (rec : OptionRecord) :
    ∀ l, findOpt k (insertOrAssign k rec l) = some rec := by
  intro l
  induction l with
  | nil => simp [insertOrAssign, findOpt]
  | cons hd tl ih =>
    obtain ⟨k2, r2⟩ := hd
    by_cases h : k2 = k
    · subst h
      simp [insertOrAssign, findOpt]
    · simp [insertOrAssign, h, findOpt, ih]

/-- Lookup after insert_or_assign at a different key. -/
theorem findOpt_insertOrAssign_ne {f k : String} (rec : OptionRecord) (h : f ≠ k) :
    ∀ l, findOpt f (insertOrAssign k rec l) = findOpt f l := by
  have hk : ¬ k = f := fun hh => h hh.symm
  intro l
  induction l with
  | nil => simp [insertOrAssign, findOpt, hk]
  | cons hd tl ih =>
    obtain ⟨k2, r2⟩ := hd
    by_cases h2 : k2 = k
    · subst h2
      simp [insertOrAssign, findOpt, hk]
    · simp [insertOrAssign, h2, findOpt, ih]

/-- insert_or_assign preserves a pointwise boolean invariant. -/
theorem all_insertOrAssign (P : String × OptionRecord → Bool) (k : String) (rec : OptionRecord)
    (hP : P (k, rec) = true) :
    ∀ l, l.all P = true → (insertOrAssign k rec l).all P = true := by
  intro l
  induction l with
  | nil => simp [insertOrAssign, hP]
  | cons hd tl ih =>
    obtain ⟨k2, r2⟩ := hd
    intro hall
    simp only [List.all_cons, Bool.and_eq_true] at hall
    by_cases h2 : k2 = k
    · simp [insertOrAssign, h2, hP, List.all_cons, hall.2]
    · simp [insertOrAssign, h2, List.all_cons, hall.1, ih hall.2]

/-- Setting bit three does not disturb bit two: the SET_BY_USER mark never
changes whether a record is a flag. -/
theorem or8_and4 (a : Nat) : (a ||| 8) &&& 4 = a &&& 4 := by
  apply Nat.eq_of_testBit_eq
  intro i
  rw [Nat.testBit_and, Nat.testBit_and, Nat.testBit_or]
  match i with
  | 0 => rw [(by decide : Nat.testBit 4 0 = false)]; simp
  | 1 => rw [(by decide : Nat.testBit 4 1 = false)]; simp
  | 2 => rw [(by decide : Nat.testBit 8 2 = false)]; simp
  | (n + 3) =>
    have h4 : Nat.testBit 4 (n + 3) = false := by
      apply Nat.testBit_eq_false_of_lt
      calc (4 : Nat) < 2 ^ 3 := by norm_num
        _ ≤ 2 ^ (n + 3) := Nat.pow_le_pow_right (by norm_num) (by omega)
    rw [h4]
    simp

/-- Shape of a successful setArgFromInput: the value is replaced and
SET_BY_USER is added to info; nothing else changes. -/
theorem setArgFromInput_shape {r r2 : OptionRecord} {input : String}
    (h : r.setArgFromInput input = .ok r2) :
    ∃ v, parseArg r.typeOf input = .ok v ∧
      r2 = { r with value := v, info := r.info ||| SET_BY_USER } := by
  unfold OptionRecord.setArgFromInput at h
  cases hp : parseArg r.typeOf input with
  | error e => rw [hp] at h; exact absurd h (by simp)
  | ok v =>
    rw [hp] at h
    injection h with h1
    exact ⟨v, rfl, h1.symm⟩

/-- setArgFromInput never turns a record into a flag or a flag into a
non flag. -/
theorem setArgFromInput_isFlag {r r2 : OptionRecord} {input : String}
    (h : r.setArgFromInput input = .ok r2) : r2.isFlag = r.isFlag := by
  obtain ⟨v, _, h2⟩ := setArgFromInput_shape h
  subst h2
  simp only [OptionRecord.isFlag, SET_BY_USER]
  rw [(by decide : FLAG ^^^ OPTIONAL = 4), or8_and4]

/-- Any two sufficient fuel supplies compute the same scan result. -/
theorem scanFromFuel_adequate :
    ∀ (n m : Nat) (args : List String) (ign : Bool) (reg : CliParser) (i : Nat),
      args.length - i < n → args.length - i < m →
      scanFromFuel n args ign reg i = scanFromFuel m args ign reg i := by
  intro n
  induction n with
  | zero =>
    intro m args ign reg i h _
    exact absurd h (by omega)
  | succ n ih =>
    intro m args ign reg i h hm
    cases m with
    | zero => exact absurd hm (by omega)
    | succ m =>
      simp only [scanFromFuel]
      by_cases hlt : i < args.length
      · simp only [if_pos hlt]
        cases hs : scanStep args ign reg i with
        | next reg2 i2 =>
          have hgt := scanStep_next_gt hs
          exact ih m args ign reg2 i2 (by omega) (by omega)
        | fail reg2 e => rfl
      · simp only [if_neg hlt]

/-- Unfolding scanFrom when the index is past the end. -/
theorem scanFrom_stop {args : List String} (ign : Bool) (reg : CliParser) {i : Nat}
    (h : ¬ i < args.length) : scanFrom args ign reg i = (reg, none) := by
  unfold scanFrom
  simp only [scanFromFuel]
  simp [h]

/-- Unfolding scanFrom on a continuing step. -/
theorem scanFrom_next {args : List String} {ign : Bool} {reg : CliParser} {i : Nat}
    {reg2 : CliParser} {i2 : Nat} (h : i < args.length)
    (hs : scanStep args ign reg i = .next reg2 i2) :
    scanFrom args ign reg i = scanFrom args ign reg2 i2 := by
  unfold scanFrom
  have h1 : scanFromFuel (args.length + 1) args ign reg i
      = scanFromFuel args.length args ign reg2 i2 := by
    simp only [scanFromFuel]
    rw [if_pos h, hs]
  rw [h1]
  have hgt := scanStep_next_gt hs
  exact scanFromFuel_adequate args.length (args.length + 1) args ign reg2 i2 (by omega) (by omega)

/-- Unfolding scanFrom on a failing step. -/
theorem scanFrom_fail {args : List String} {ign : Bool} {reg : CliParser} {i : Nat}
    {reg2 : CliParser} {e : Err} (h : i < args.length)
    (hs : scanStep args ign reg i = .fail reg2 e) :
    scanFrom args ign reg i = (reg2, some e) := by
  unfold scanFrom
  simp only [scanFromFuel]
  rw [if_pos h, hs]

/-- Fuel bounded form: scanning never touches executablePath. -/
theorem scanFrom_exec_aux (n : Nat) :
    ∀ (args : List String) (ign : Bool) (reg : CliParser) (i : Nat),
      args.length - i ≤ n →
      (scanFrom args ign reg i).1.executablePath = reg.executablePath := by
  induction n with
  | zero =>
    intro args ign reg i h
    rw [scanFrom_stop ign reg (by omega)]
  | succ n ih =>
    intro args ign reg i h
    by_cases hlt : i < args.length
    · cases hs : scanStep args ign reg i with
      | next reg2 i2 =>
        rw [scanFrom_next hlt hs]
        have h2 := scanStep_next_gt hs
        rw [ih args ign reg2 i2 (by omega)]
        exact scanStep_next_exec hs
      | fail reg2 e =>
        rw [scanFrom_fail hlt hs]
        rw [scanStep_fail_reg hs]
    · rw [scanFrom_stop ign reg hlt]

/-- Scanning never touches executablePath. -/
theorem scanFrom_exec (args : List String) (ign : Bool) (reg : CliParser) (i : Nat) :
    (scanFrom args ign reg i).1.executablePath = reg.executablePath :=
  scanFrom_exec_aux args.length args ign reg i (by omega)

/-- takeWhile of a list followed by a stopping element and a tail. -/
theorem takeWhile_append_of_all {α : Type} (p : α → Bool) (x : α) (hx : p x = false) :
    ∀ (k v : List α), k.all p = true → (k ++ x :: v).takeWhile p = k := by
  intro k v
  induction k with
  | nil =>
    intro _
    simp [List.takeWhile, hx]
  | cons hd tl ih =>
    intro hall
    simp only [List.all_cons, Bool.and_eq_true] at hall
    simp [List.takeWhile, hall.1, ih hall.2]

/-- dropWhile of a list followed by a stopping element and a tail. -/
theorem dropWhile_append_of_all {α : Type} (p : α → Bool) (x : α) (hx : p x = false) :
    ∀ (k v : List α), k.all p = true → (k ++ x :: v).dropWhile p = x :: v := by
  intro k v
  induction k with
  | nil =>
    intro _
    simp [List.dropWhile, hx]
  | cons hd tl ih =>
    intro hall
    simp only [List.all_cons, Bool.and_eq_true] at hall
    simp [List.dropWhile, hall.1, ih hall.2]

/-- A name with no equals sign fails the strContainsEq test. -/
theorem strContainsEq_of_all {f : String} (h : f.data.all (fun c => c != '=') = true) :
    strContainsEq f = false := by
  unfold strContainsEq
  rw [List.all_eq_true] at h
  rw [List.any_eq_false]
  intro c hc
  have := h c hc
  simpa using this

/-- The character data of a token built as key, equals sign, value. -/
theorem data_eq_token (f v : String) :
    (f ++ "=" ++ v).data = f.data ++ '=' :: v.data := by
  rw [String.data_append, String.data_append, List.append_assoc]
  rfl

/-- A token built as key, equals sign, value passes the strContainsEq test. -/
theorem strContainsEq_token (f v : String) : strContainsEq (f ++ "=" ++ v) = true := by
  unfold strContainsEq
  rw [data_eq_token, List.any_eq_true]
  exact ⟨'=', by simp, by simp⟩

/-- Splitting a token at the first equals sign recovers the key when the key
itself holds none. -/
theorem keyOf_token {f : String} (v : String) (h : f.data.all (fun c => c != '=') = true) :
    keyOf (f ++ "=" ++ v) = f := by
  unfold keyOf
  rw [data_eq_token, takeWhile_append_of_all _ '=' (by decide) f.data v.data h]

/-- Splitting a token at the first equals sign recovers the inline value when
the key holds no equals sign. -/
theorem valueAfterEq_token {f : String} (v : String) (h : f.data.all (fun c => c != '=') = true) :
    valueAfterEq (f ++ "=" ++ v) = v := by
  unfold valueAfterEq
  rw [data_eq_token, dropWhile_append_of_all _ '=' (by decide) f.data v.data h]
  rfl

/-- The loop computes the same result from any state the scan reaches. -/
theorem scanFrom_of_reaches {args : List String} {ign : Bool} {reg : CliParser} {i : Nat}
    {reg2 : CliParser} {i2 : Nat} (h : ScanReaches args ign reg i reg2 i2) :
    scanFrom args ign reg i = scanFrom args ign reg2 i2 := by
  induction h with
  | refl reg i => rfl
  | step hlt hs _ ih => rw [scanFrom_next hlt hs, ih]

/-- A continuing step of the scan never rewrites the record of a flag whose
bare name is not the current token. -/
theorem scanStep_next_findOpt_flag {args : List String} {ign : Bool} {reg : CliParser} {i : Nat}
    {reg2 : CliParser} {i2 : Nat} {f : String} {rec : OptionRecord}
    (h : scanStep args ign reg i = .next reg2 i2)
    (hf : findOpt f reg.cliOptions = some rec) (hfl : rec.isFlag = true)
    (ht : args[i]? ≠ some f) :
    findOpt f reg2.cliOptions = some rec := by
  rcases scanStep_cases args ign reg i with ⟨e, he⟩ | hn | ⟨k, rec0, rec2b, di, hk, _, hs, hshape⟩
  · rw [h] at he
    exact absurd he (by simp)
  · rw [h] at hn
    injection hn with h1 h2
    rw [h1]
    exact hf
  · rw [h] at hs
    injection hs with h1 h2
    have hkf : k ≠ f := by
      rcases hshape with ⟨hnofl, _⟩ | ⟨_, htok, _⟩
      · intro hEq
        subst hEq
        rw [hf] at hk
        injection hk with h3
        rw [← h3] at hnofl
        rw [hfl] at hnofl
        exact absurd hnofl (by simp)
      · intro hEq
        subst hEq
        rw [htok] at ht
        exact ht rfl
    rw [h1]
    exact (findOpt_insertOrAssign_ne rec2b (Ne.symm hkf) reg.cliOptions).trans hf

/-- Fuel bounded form: while the bare name of a flag does not occur among the
remaining tokens, the scan leaves its record untouched (tokens assigning to
it through the equals sign stop the scan before any mutation). -/
theorem scanFrom_unseen_flag_aux (n : Nat) :
    ∀ (args : List String) (ign : Bool) (reg : CliParser) (i : Nat) (f : String)
      (rec : OptionRecord),
      args.length - i ≤ n →
      findOpt f reg.cliOptions = some rec → rec.isFlag = true →
      (∀ j, i ≤ j → args[j]? ≠ some f) →
      findOpt f (scanFrom args ign reg i).1.cliOptions = some rec := by
  induction n with
  | zero =>
    intro args ign reg i f rec h hf _ _
    rw [scanFrom_stop ign reg (by omega)]
    exact hf
  | succ n ih =>
    intro args ign reg i f rec h hf hfl hj
    by_cases hlt : i < args.length
    · cases hs : scanStep args ign reg i with
      | next reg2 i2 =>
        rw [scanFrom_next hlt hs]
        have hgt := scanStep_next_gt hs
        refine ih args ign reg2 i2 f rec (by omega) ?_ hfl ?_
        · exact scanStep_next_findOpt_flag hs hf hfl (hj i (by omega))
        · intro j hij
          exact hj j (by omega)
      | fail reg2 e =>
        rw [scanFrom_fail hlt hs]
        rw [scanStep_fail_reg hs]
        exact hf
    · rw [scanFrom_stop ign reg hlt]
      exact hf

/-- While the bare name of a flag does not occur among the remaining tokens,
the scan leaves its record untouched. -/
theorem scanFrom_unseen_flag {args : List String} {ign : Bool} {reg : CliParser} {i : Nat}
    {f : String} {rec : OptionRecord}
    (hf : findOpt f reg.cliOptions = some rec) (hfl : rec.isFlag = true)
    (hj : ∀ j, i ≤ j → args[j]? ≠ some f) :
    findOpt f (scanFrom args ign reg i).1.cliOptions = some rec :=
  scanFrom_unseen_flag_aux args.length args ign reg i f rec (by omega) hf hfl hj

/-- In a flag free registry every lookup yields a record that is not a
flag. -/
theorem findOpt_flagFree {k : String} {rec : OptionRecord} :
    ∀ {l : List (String × OptionRecord)}, findOpt k l = some rec →
      l.all (fun kv => !kv.2.isFlag) = true → rec.isFlag = false := by
  intro l
  induction l with
  | nil => intro h; exact absurd h (by simp [findOpt])
  | cons hd tl ih =>
    obtain ⟨k2, r2⟩ := hd
    intro h hall
    simp only [List.all_cons, Bool.and_eq_true] at hall
    by_cases h2 : k2 = k
    · rw [findOpt, if_pos h2] at h
      injection h with h3
      rw [← h3]
      simpa using hall.1
    · rw [findOpt, if_neg h2] at h
      exact ih h hall.2

/-- A continuing step of the scan preserves flag freedom: the only record it
can rewrite goes through setArgFromInput, which never creates a flag. -/
theorem scanStep_next_flagFree {args : List String} {ign : Bool} {reg : CliParser} {i : Nat}
    {reg2 : CliParser} {i2 : Nat} (h : scanStep args ign reg i = .next reg2 i2)
    (hff : flagFree reg = true) : flagFree reg2 = true := by
  rcases scanStep_cases args ign reg i with ⟨e, he⟩ | hn | ⟨k, rec0, rec2b, di, hk, _, hs, hshape⟩
  · rw [h] at he
    exact absurd he (by simp)
  · rw [h] at hn
    injection hn with h1 h2
    rw [h1]
    exact hff
  · rw [h] at hs
    injection hs with h1 h2
    rcases hshape with ⟨_, inp, hset⟩ | ⟨hisfl, _, _⟩
    · have hfl2 : rec2b.isFlag = false := by
        rw [setArgFromInput_isFlag hset]
        exact findOpt_flagFree hk hff
      rw [h1]
      exact all_insertOrAssign _ k rec2b (by simp [hfl2]) reg.cliOptions hff
    · rw [findOpt_flagFree hk hff] at hisfl
      exact absurd hisfl (by simp)

/-- On a registry with no flag record the two loop bodies coincide: the only
difference between the revisions is the pair of isFlag branches. -/
theorem scanStepOld_eq_scanStep (args : List String) (ign : Bool) (reg : CliParser) (i : Nat)
    (hff : flagFree reg = true) :
    scanStepOld args ign reg i = scanStep args ign reg i := by
  unfold scanStepOld scanStep
  cases hg : args[i]? with
  | none => rfl
  | some tok =>
    cases hc : strContainsEq tok with
    | true =>
      simp only [hc, if_true]
      cases hf : findOpt (keyOf tok) reg.cliOptions with
      | none => rfl
      | some rec => simp [findOpt_flagFree hf hff]
    | false =>
      simp only [hc, if_false]
      cases hf : findOpt tok reg.cliOptions with
      | none => rfl
      | some rec => simp [findOpt_flagFree hf hff]

/-- On a registry with no flag record the two loops coincide at every fuel
supply. -/
theorem scanFromFuelOld_eq :
    ∀ (n : Nat) (args : List String) (ign : Bool) (reg : CliParser) (i : Nat),
      flagFree reg = true →
      scanFromFuelOld n args ign reg i = scanFromFuel n args ign reg i := by
  intro n
  induction n with
  | zero =>
    intro args ign reg i _
    rfl
  | succ n ih =>
    intro args ign reg i hff
    simp only [scanFromFuelOld, scanFromFuel]
    by_cases hlt : i < args.length
    · simp only [if_pos hlt]
      rw [scanStepOld_eq_scanStep args ign reg i hff]
      cases hs : scanStep args ign reg i with
      | next reg2 i2 => exact ih args ign reg2 i2 (scanStep_next_flagFree hs hff)
      | fail reg2 e => rfl
    · simp only [if_neg hlt]

/-- On a registry with no flag record the two loops coincide. -/
theorem scanFromOld_eq_scanFrom (args : List String) (ign : Bool) (reg : CliParser) (i : Nat)
    (hff : flagFree reg = true) :
    scanFromOld args ign reg i = scanFrom args ign reg i :=
  scanFromFuelOld_eq (args.length + 1) args ign reg i hff

/-- When the scan fails, parse returns the scan result unchanged, whatever
the suppression switch says (the completeness check never runs). -/
theorem parse_scan_fail (p : CliParser) (a : String) (rest : List String) (ign sup : Bool)
    (reg2 : CliParser) (e : Err)
    (h : scanFrom (a :: rest) ign { p with executablePath := a } 1 = (reg2, some e)) :
    p.parse (a :: rest) ign sup = (reg2, some e) := by
  simp only [CliParser.parse]
  rw [h]

/-- The registry state returned by parse is the one the scan produced; the
completeness check only adds an error. -/
theorem parse_fst (p : CliParser) (a : String) (rest : List String) (ign sup : Bool) :
    (p.parse (a :: rest) ign sup).1
      = (scanFrom (a :: rest) ign { p with executablePath := a } 1).1 := by
  simp only [CliParser.parse]
  cases hr : scanFrom (a :: rest) ign { p with executablePath := a } 1 with
  | mk reg2 op =>
    cases op with
    | some e => rfl
    | none =>
      cases sup with
      | true => rfl
      | false =>
        by_cases hm : (requiredUnsetNames reg2).isEmpty = true
        · simp [hm]
        · simp [hm]

/-- C1: a freshly declared flag holds false and is not set by user; when the
scan is at a token equal to the bare name of a declared flag (a name without
an equals sign), the step sets the boolean value to true, marks the record
set by user, and continues at the very next token, rewriting no other record;
and while the bare name has not occurred, the record of the flag is exactly
the one it started with (so value false and not set by user after
declaration). -/
theorem flag_bare_token_semantics :
    (∀ (p : CliParser) (opt d : String) (p2 : CliParser),
        p.flag opt d = .ok p2 →
        findOpt opt p2.cliOptions = some ⟨FLAG, d, Value.vBool false⟩ ∧
        OptionRecord.isSetByUser ⟨FLAG, d, Value.vBool false⟩ = false) ∧
    (∀ (args : List String) (ign : Bool) (reg : CliParser) (i : Nat) (f : String)
        (rec : OptionRecord),
        args[i]? = some f → f.data.all (fun c => c != '=') = true →
        findOpt f reg.cliOptions = some rec → rec.isFlag = true →
        scanStep args ign reg i = .next { reg with cliOptions := insertOrAssign f { rec with info := FLAG_OVERRIDEN_BY_USER, value := Value.vBool true } reg.cliOptions } (i + 1) ∧
        OptionRecord.isSetByUser
          { rec with info := FLAG_OVERRIDEN_BY_USER, value := Value.vBool true } = true) ∧
    (∀ (args : List String) (ign : Bool) (reg : CliParser) (i : Nat) (f : String)
        (rec : OptionRecord),
        findOpt f reg.cliOptions = some rec → rec.isFlag = true →
        (∀ j, i ≤ j → args[j]? ≠ some f) →
        findOpt f (scanFrom args ign reg i).1.cliOptions = some rec) := by
  refine ⟨?_, ?_, ?_⟩
  · intro p opt d p2 h
    unfold CliParser.flag at h
    by_cases hh : p.hasOption opt = true
    · rw [if_pos hh] at h
      exact absurd h (by simp)
    · rw [if_neg hh] at h
      injection h with h1
      rw [← h1]
      refine ⟨findOpt_insertOrAssign_self opt ⟨FLAG, d, Value.vBool false⟩ p.cliOptions, ?_⟩
      show ((FLAG &&& SET_BY_USER) != 0) = false
      decide
  · intro args ign reg i f rec hg hno hf hfl
    constructor
    · simp [scanStep, hg, strContainsEq_of_all hno, hf, hfl]
    · show ((FLAG_OVERRIDEN_BY_USER &&& SET_BY_USER) != 0) = true
      decide
  · intro args ign reg i f rec hf hfl hj
    exact scanFrom_unseen_flag hf hfl hj

/-- C1 witness: evaluation at the flag -v of regFlagDemo, with the argument
vectors app -v (the flag token at index one) and app x (no occurrence). -/
theorem flag_bare_token_semantics_witness :
    (findOpt "-v" regFlagDemo.cliOptions = some ⟨FLAG, "verbose", Value.vBool false⟩ ∧
     OptionRecord.isSetByUser ⟨FLAG, "verbose", Value.vBool false⟩ = false) ∧
    (scanStep ["app", "-v"] false regFlagDemo 1 = .next { regFlagDemo with cliOptions := insertOrAssign "-v" ⟨FLAG_OVERRIDEN_BY_USER, "verbose", Value.vBool true⟩ regFlagDemo.cliOptions } 2 ∧
     OptionRecord.isSetByUser ⟨FLAG_OVERRIDEN_BY_USER, "verbose", Value.vBool true⟩ = true) ∧
    findOpt "-v" (scanFrom ["app", "x"] true regFlagDemo 1).1.cliOptions
      = some ⟨FLAG, "verbose", Value.vBool false⟩ := by
  refine ⟨?_, ?_, ?_⟩
  · exact flag_bare_token_semantics.1 (mkCliParser "app" "demo" "1.0") "-v" "verbose"
      regFlagDemo rfl
  · exact flag_bare_token_semantics.2.1 ["app", "-v"] false regFlagDemo 1 "-v"
      ⟨FLAG, "verbose", Value.vBool false⟩ rfl (by decide) rfl (by decide)
  · refine flag_bare_token_semantics.2.2 ["app", "x"] true regFlagDemo 1 "-v"
      ⟨FLAG, "verbose", Value.vBool false⟩ rfl (by decide) ?_
    intro j hj
    match j with
    | 0 => omega
    | 1 => decide
    | (n + 2) => simp

/-- C2: a token assigning any inline value to a declared flag through the
equals sign makes the scan step fail with the invalid input error, and parse
on a vector holding such a token as its only argument fails the same way,
whatever the two switches say; the flag is never assigned through the equals
sign. -/
theorem flag_eq_assignment_invalid :
    (∀ (args : List String) (ign : Bool) (reg : CliParser) (i : Nat) (f v : String)
        (rec : OptionRecord),
        args[i]? = some (f ++ "=" ++ v) → f.data.all (fun c => c != '=') = true →
        findOpt f reg.cliOptions = some rec → rec.isFlag = true →
        scanStep args ign reg i = .fail reg (.invalidInput flagAssignMsg)) ∧
    (∀ (p : CliParser) (a f v : String) (rec : OptionRecord) (ign sup : Bool),
        f.data.all (fun c => c != '=') = true →
        findOpt f p.cliOptions = some rec → rec.isFlag = true →
        p.parse [a, f ++ "=" ++ v] ign sup
          = ({ p with executablePath := a }, some (.invalidInput flagAssignMsg))) := by
  have hstep : ∀ (args : List String) (ign : Bool) (reg : CliParser) (i : Nat) (f v : String)
      (rec : OptionRecord),
      args[i]? = some (f ++ "=" ++ v) → f.data.all (fun c => c != '=') = true →
      findOpt f reg.cliOptions = some rec → rec.isFlag = true →
      scanStep args ign reg i = .fail reg (.invalidInput flagAssignMsg) := by
    intro args ign reg i f v rec hg hno hf hfl
    simp [scanStep, hg, strContainsEq_token, keyOf_token v hno, hf, hfl]
  refine ⟨hstep, ?_⟩
  intro p a f v rec ign sup hno hf hfl
  apply parse_scan_fail
  apply scanFrom_fail (by simp)
  exact hstep [a, f ++ "=" ++ v] ign { p with executablePath := a } 1 f v rec (by simp) hno hf hfl

/-- C2 witness: evaluation at the flag -v of regFlagDemo with the token that
assigns the value true to it through the equals sign. -/
theorem flag_eq_assignment_invalid_witness :
    scanStep ["app", "-v" ++ "=" ++ "true"] false regFlagDemo 1
      = .fail regFlagDemo (.invalidInput flagAssignMsg) ∧
    regFlagDemo.parse ["app", "-v" ++ "=" ++ "true"] false false
      = ({ regFlagDemo with executablePath := "app" }, some (.invalidInput flagAssignMsg)) := by
  constructor
  · exact flag_eq_assignment_invalid.1 ["app", "-v" ++ "=" ++ "true"] false regFlagDemo 1
      "-v" "true" ⟨FLAG, "verbose", Value.vBool false⟩ rfl (by decide) rfl (by decide)
  · exact flag_eq_assignment_invalid.2 regFlagDemo "app" "-v" "true"
      ⟨FLAG, "verbose", Value.vBool false⟩ false false (by decide) rfl (by decide)

/-- C3 counterexample: declaring a flag whose name holds an equals sign
succeeds and inserts the name, instead of failing with BadOptionFormatError;
CliParser::flag skips the preliminary format check that both forms of
CliParser::option run. -/
theorem flag_format_check_skipped_cex :
    (mkCliParser "app" "demo" "1.0").flag "a=b" "x"
      = Except.ok ⟨"app", "", "demo", "1.0", [("a=b", ⟨FLAG, "x", Value.vBool false⟩)]⟩ ∧
    CliParser.hasOption ⟨"app", "", "demo", "1.0", [("a=b", ⟨FLAG, "x", Value.vBool false⟩)]⟩
      "a=b" = true := by
  exact ⟨rfl, rfl⟩

/-- C3 amended: for a name holding an equals sign or a space and not yet
registered, declareRequired and declareOptional fail with BadOptionFormatError
and insert nothing, while declareFlag runs only the redefinition check and
inserts the badly formed name. -/
theorem declare_format_validation_amended :
    ∀ (p : CliParser) (k : Kind) (opt d : String) (v : Value),
      hasBadFormatChar opt = true →
      p.hasOption opt = false →
      p.optionRequired k opt d = .error (.badOptionFormat opt) ∧
      p.optionWithDefault opt d v = .error (.badOptionFormat opt) ∧
      p.flag opt d
        = .ok { p with cliOptions := insertOrAssign opt ⟨FLAG, d, Value.vBool false⟩ p.cliOptions } := by
  intro p k opt d v hbad hno
  have hc : p.preliminaryCheckOptionForProblems opt = some (.badOptionFormat opt) := by
    simp [CliParser.preliminaryCheckOptionForProblems, hno, hbad]
  refine ⟨?_, ?_, ?_⟩
  · simp [CliParser.optionRequired, hc]
  · simp [CliParser.optionWithDefault, hc]
  · simp [CliParser.flag, hno]

/-- C3 amended witness: evaluation at the name a=b on the empty registry. -/
theorem declare_format_validation_amended_witness :
    hasBadFormatChar "a=b" = true ∧
    (mkCliParser "app" "demo" "1.0").hasOption "a=b" = false ∧
    ((mkCliParser "app" "demo" "1.0").optionRequired Kind.tInt "a=b" "x"
        = .error (.badOptionFormat "a=b") ∧
     (mkCliParser "app" "demo" "1.0").optionWithDefault "a=b" "x" (Value.vInt 3)
        = .error (.badOptionFormat "a=b") ∧
     (mkCliParser "app" "demo" "1.0").flag "a=b" "x"
        = .ok ⟨"app", "", "demo", "1.0", [("a=b", ⟨FLAG, "x", Value.vBool false⟩)]⟩) := by
  refine ⟨by decide, by decide, ?_⟩
  exact declare_format_validation_amended (mkCliParser "app" "demo" "1.0") Kind.tInt "a=b" "x"
    (Value.vInt 3) (by decide) (by decide)

/-- C4 counterexample: on a registry holding the flag -v, the argument vector
app -v=true makes the older revision succeed with the flag set to true, while
the current revision fails with the invalid input error, so the two parse
implementations are not equivalent. -/
theorem parse_impls_differ_cex :
    parseOld regFlagDemo ["app", "-v=true"] false true
      ≠ CliParser.parse regFlagDemo ["app", "-v=true"] false true := by
  decide

/-- C4 amended: the two parse implementations agree on every registry that
holds no flag record (their loop bodies differ only in the two isFlag
branches); on registries with flags they diverge, as the counterexample
shows. -/
theorem parse_impls_equiv_flagfree :
    ∀ (p : CliParser) (args : List String) (ign sup : Bool),
      flagFree p = true → parseOld p args ign sup = p.parse args ign sup := by
  intro p args ign sup hff
  cases args with
  | nil => rfl
  | cons a rest =>
    simp only [parseOld, CliParser.parse]
    rw [scanFromOld_eq_scanFrom (a :: rest) ign { p with executablePath := a } 1 hff]

/-- C4 amended witness: evaluation on the flag free registry regIntDemo. -/
theorem parse_impls_equiv_flagfree_witness :
    flagFree regIntDemo = true ∧
    parseOld regIntDemo ["app", "-n", "5"] false false
      = CliParser.parse regIntDemo ["app", "-n", "5"] false false :=
  ⟨by decide, parse_impls_equiv_flagfree regIntDemo ["app", "-n", "5"] false false (by decide)⟩

/-- C5: when the scan completes without a fatal error and the check is not
suppressed, parse returns the scanned registry together with a single
aggregate MissingRequiredOptionsError carrying exactly the names of the
records that are still not good (required and never set), and no error at all
when that collection is empty; the hypothesis places no restriction on the
unknown option switch, so earlier skips do not matter. -/
theorem parse_missing_required_aggregate :
    ∀ (p : CliParser) (a : String) (rest : List String) (ign : Bool) (reg2 : CliParser),
      scanFrom (a :: rest) ign { p with executablePath := a } 1 = (reg2, none) →
      p.parse (a :: rest) ign false =
        (reg2, if (requiredUnsetNames reg2).isEmpty then none
               else some (Err.missingRequiredOptions (requiredUnsetNames reg2))) := by
  intro p a rest ign reg2 h
  simp only [CliParser.parse]
  rw [h]
  by_cases hm : (requiredUnsetNames reg2).isEmpty = true
  · simp [hm]
  · simp [hm]

/-- C5 witness: evaluation on regIntDemo with an argument vector that never
supplies the required option -n. -/
theorem parse_missing_required_aggregate_witness :
    scanFrom ["app"] false { regIntDemo with executablePath := "app" } 1
      = ({ regIntDemo with executablePath := "app" }, none) ∧
    regIntDemo.parse ["app"] false false
      = ({ regIntDemo with executablePath := "app" },
         some (Err.missingRequiredOptions ["-n"])) := by
  constructor
  · rfl
  · exact parse_missing_required_aggregate regIntDemo "app" [] false
      { regIntDemo with executablePath := "app" } rfl

/-- C6: getOption fails with NoSuchOptionException when the name is absent;
otherwise with BadOptionAccessException when the record is not good, with no
look at the requested kind, so this failure wins even when the kind also
mismatches; otherwise with BadOptionCastException when the requested kind
differs from the stored kind; and otherwise returns the stored value. The
C++ member function is const, and the embedding returns only the value, so
the registry is left unchanged by construction. -/
theorem getOption_error_precedence :
    ∀ (p : CliParser) (k : Kind) (opt : String),
      (findOpt opt p.cliOptions = none → p.getOption k opt = .error (.noSuchOption opt)) ∧
      (∀ rec, findOpt opt p.cliOptions = some rec → rec.good = false →
        p.getOption k opt = .error (.badOptionAccess opt)) ∧
      (∀ rec, findOpt opt p.cliOptions = some rec → rec.good = true → rec.typeOf ≠ k →
        p.getOption k opt = .error (.badOptionCast opt)) ∧
      (∀ rec, findOpt opt p.cliOptions = some rec → rec.good = true → rec.typeOf = k →
        p.getOption k opt = .ok rec.value) := by
  intro p k opt
  refine ⟨?_, ?_, ?_, ?_⟩
  · intro h
    simp [CliParser.getOption, h]
  · intro rec h hg
    simp [CliParser.getOption, h, hg]
  · intro rec h hg hk
    simp [CliParser.getOption, h, hg, hk]
  · intro rec h hg hk
    simp [CliParser.getOption, h, hg, hk]

/-- C6 witness: a missing name, the required unset int option -n read at the
wrong kind bool (access beats cast), and the flag -v read at the wrong and at
the right kind. -/
theorem getOption_error_precedence_witness :
    regFlagDemo.getOption Kind.tInt "-x" = .error (.noSuchOption "-x") ∧
    regIntDemo.getOption Kind.tBool "-n" = .error (.badOptionAccess "-n") ∧
    regFlagDemo.getOption Kind.tInt "-v" = .error (.badOptionCast "-v") ∧
    regFlagDemo.getOption Kind.tBool "-v" = .ok (Value.vBool false) := by
  refine ⟨?_, ?_, ?_, ?_⟩
  · exact (getOption_error_precedence regFlagDemo Kind.tInt "-x").1 rfl
  · exact (getOption_error_precedence regIntDemo Kind.tBool "-n").2.1
      ⟨REQUIRED, "number", Value.vInt 0⟩ rfl (by decide)
  · exact (getOption_error_precedence regFlagDemo Kind.tInt "-v").2.2.1
      ⟨FLAG, "verbose", Value.vBool false⟩ rfl (by decide) (by decide)
  · exact (getOption_error_precedence regFlagDemo Kind.tBool "-v").2.2.2
      ⟨FLAG, "verbose", Value.vBool false⟩ rfl (by decide) (by decide)

/-- C8: a token whose key is not declared makes the scan step fail with
NoSuchOptionException carrying the key under the strict policy, and under the
ignore policy the step skips exactly one token, keeps the registry untouched,
and the following token is not consumed; this holds both for bare tokens and
for tokens with an inline value, and parse surfaces the strict failure. -/
theorem unknown_option_policy :
    (∀ (args : List String) (reg : CliParser) (i : Nat) (t : String),
        args[i]? = some t → strContainsEq t = false → findOpt t reg.cliOptions = none →
        scanStep args false reg i = .fail reg (.noSuchOption t) ∧
        scanStep args true reg i = .next reg (i + 1)) ∧
    (∀ (args : List String) (reg : CliParser) (i : Nat) (f v : String),
        args[i]? = some (f ++ "=" ++ v) → f.data.all (fun c => c != '=') = true →
        findOpt f reg.cliOptions = none →
        scanStep args false reg i = .fail reg (.noSuchOption f) ∧
        scanStep args true reg i = .next reg (i + 1)) ∧
    (∀ (p : CliParser) (a t : String) (sup : Bool),
        strContainsEq t = false → findOpt t p.cliOptions = none →
        p.parse [a, t] false sup
          = ({ p with executablePath := a }, some (.noSuchOption t))) := by
  have hbare : ∀ (args : List String) (reg : CliParser) (i : Nat) (t : String),
      args[i]? = some t → strContainsEq t = false → findOpt t reg.cliOptions = none →
      scanStep args false reg i = .fail reg (.noSuchOption t) ∧
      scanStep args true reg i = .next reg (i + 1) := by
    intro args reg i t hg hnc hfind
    constructor
    · simp [scanStep, hg, hnc, hfind]
    · simp [scanStep, hg, hnc, hfind]
  refine ⟨hbare, ?_, ?_⟩
  · intro args reg i f v hg hno hfind
    constructor
    · simp [scanStep, hg, strContainsEq_token, keyOf_token v hno, hfind]
    · simp [scanStep, hg, strContainsEq_token, keyOf_token v hno, hfind]
  · intro p a t sup hnc hfind
    apply parse_scan_fail
    apply scanFrom_fail (by simp)
    exact (hbare [a, t] { p with executablePath := a } 1 t (by simp) hnc hfind).1

/-- C8 witness: the undeclared key -x against regIntDemo, bare, with an
inline value, and through parse with the suppression switch on. -/
theorem unknown_option_policy_witness :
    (scanStep ["app", "-x"] false regIntDemo 1 = .fail regIntDemo (.noSuchOption "-x") ∧
     scanStep ["app", "-x"] true regIntDemo 1 = .next regIntDemo 2) ∧
    (scanStep ["app", "-x" ++ "=" ++ "5"] false regIntDemo 1
        = .fail regIntDemo (.noSuchOption "-x") ∧
     scanStep ["app", "-x" ++ "=" ++ "5"] true regIntDemo 1 = .next regIntDemo 2) ∧
    regIntDemo.parse ["app", "-x"] false true
      = ({ regIntDemo with executablePath := "app" }, some (.noSuchOption "-x")) := by
  refine ⟨?_, ?_, ?_⟩
  · exact unknown_option_policy.1 ["app", "-x"] regIntDemo 1 "-x" rfl (by decide) rfl
  · exact unknown_option_policy.2.1 ["app", "-x" ++ "=" ++ "5"] regIntDemo 1 "-x" "5"
      rfl (by decide) rfl
  · exact unknown_option_policy.2.2 regIntDemo "app" "-x" true (by decide) rfl

/-- C9: the constructor leaves executablePath empty; every declaration
operation keeps it untouched; parse on the empty vector is a no op that
returns the registry unchanged with no error; and parse on a nonempty vector
stores token zero into executablePath of the resulting state. -/
theorem executablePath_capture :
    (∀ n d v, (mkCliParser n d v).executablePath = "") ∧
    (∀ (p : CliParser) (k : Kind) (o d : String) (p2 : CliParser),
        p.optionRequired k o d = .ok p2 → p2.executablePath = p.executablePath) ∧
    (∀ (p : CliParser) (o d : String) (val : Value) (p2 : CliParser),
        p.optionWithDefault o d val = .ok p2 → p2.executablePath = p.executablePath) ∧
    (∀ (p : CliParser) (o d : String) (p2 : CliParser),
        p.flag o d = .ok p2 → p2.executablePath = p.executablePath) ∧
    (∀ (p : CliParser) (ign sup : Bool), p.parse [] ign sup = (p, none)) ∧
    (∀ (p : CliParser) (a : String) (rest : List String) (ign sup : Bool),
        (p.parse (a :: rest) ign sup).1.executablePath = a) := by
  refine ⟨fun n d v => rfl, ?_, ?_, ?_, fun p ign sup => rfl, ?_⟩
  · intro p k o d p2 h
    unfold CliParser.optionRequired at h
    cases hch : p.preliminaryCheckOptionForProblems o with
    | some e =>
      rw [hch] at h
      exact absurd h (by simp)
    | none =>
      rw [hch] at h
      injection h with h1
      rw [← h1]
  · intro p o d val p2 h
    unfold CliParser.optionWithDefault at h
    cases hch : p.preliminaryCheckOptionForProblems o with
    | some e =>
      rw [hch] at h
      exact absurd h (by simp)
    | none =>
      rw [hch] at h
      injection h with h1
      rw [← h1]
  · intro p o d p2 h
    unfold CliParser.flag at h
    by_cases hh : p.hasOption o = true
    · rw [if_pos hh] at h
      exact absurd h (by simp)
    · rw [if_neg hh] at h
      injection h with h1
      rw [← h1]
  · intro p a rest ign sup
    rw [parse_fst p a rest ign sup, scanFrom_exec]

/-- C9 witness: the fresh registry, the three declaration forms evaluated on
it, the empty vector no op, and capture of token zero. -/
theorem executablePath_capture_witness :
    (mkCliParser "app" "demo" "1.0").executablePath = "" ∧
    regIntDemo.executablePath = (mkCliParser "app" "demo" "1.0").executablePath ∧
    (⟨"app", "", "demo", "1.0", [("-q", ⟨OPTIONAL, "q", Value.vInt 3⟩)]⟩ : CliParser).executablePath
      = (mkCliParser "app" "demo" "1.0").executablePath ∧
    regFlagDemo.executablePath = (mkCliParser "app" "demo" "1.0").executablePath ∧
    regIntDemo.parse [] false false = (regIntDemo, none) ∧
    (regIntDemo.parse ["app", "-n"] false true).1.executablePath = "app" := by
  refine ⟨?_, ?_, ?_, ?_, ?_, ?_⟩
  · exact executablePath_capture.1 "app" "demo" "1.0"
  · exact executablePath_capture.2.1 (mkCliParser "app" "demo" "1.0") Kind.tInt "-n" "number"
      regIntDemo rfl
  · exact executablePath_capture.2.2.1 (mkCliParser "app" "demo" "1.0") "-q" "q" (Value.vInt 3)
      ⟨"app", "", "demo", "1.0", [("-q", ⟨OPTIONAL, "q", Value.vInt 3⟩)]⟩ rfl
  · exact executablePath_capture.2.2.2.1 (mkCliParser "app" "demo" "1.0") "-v" "verbose"
      regFlagDemo rfl
  · exact executablePath_capture.2.2.2.2.1 regIntDemo false false
  · exact executablePath_capture.2.2.2.2.2 regIntDemo "app" ["-n"] false true

/-- C10: when the scan reaches the last token of the argument vector and that
token is a declared name that is not a flag and holds no equals sign, the
value consuming branch reads the position one past the end of the vector with
no prior bounds validation: in the embedding the indexing failure branch is
taken (the read of argv at argc), so parse surfaces indexOutOfBounds rather
than a clean InvalidInput raised before the consumption. -/
theorem trailing_option_consumes_oob :
    ∀ (p : CliParser) (a : String) (rest : List String) (ign sup : Bool)
      (reg2 : CliParser) (t : String) (rec : OptionRecord),
      rest ≠ [] →
      ScanReaches (a :: rest) ign { p with executablePath := a } 1 reg2
        ((a :: rest).length - 1) →
      (a :: rest)[(a :: rest).length - 1]? = some t →
      strContainsEq t = false →
      findOpt t reg2.cliOptions = some rec →
      rec.isFlag = false →
      p.parse (a :: rest) ign sup = (reg2, some Err.indexOutOfBounds) := by
  intro p a rest ign sup reg2 t rec hne hreach hget hnc hfind hfl
  have hl1 : (a :: rest).length = rest.length + 1 := rfl
  have hrest : rest.length ≠ 0 := by
    cases rest with
    | nil => exact absurd rfl hne
    | cons b bs => simp
  have hlast : (a :: rest).length - 1 < (a :: rest).length := by omega
  have hidx : (a :: rest).length - 1 = rest.length := by omega
  have hnone : rest[rest.length]? = none := List.getElem?_eq_none_iff.mpr (le_refl _)
  have hstep : scanStep (a :: rest) ign reg2 ((a :: rest).length - 1)
      = .fail reg2 .indexOutOfBounds := by
    rw [hidx] at hget
    rw [hidx]
    obtain ⟨hb, htok⟩ := List.getElem?_eq_some_iff.mp hget
    simp [scanStep, hget, htok, hnc, hfind, hfl, hnone]
  apply parse_scan_fail
  rw [scanFrom_of_reaches hreach]
  exact scanFrom_fail hlast hstep

/-- C10 witness: the required int option -n as the very last token, with no
value after it. -/
theorem trailing_option_consumes_oob_witness :
    regIntDemo.parse ["app", "-n"] false false
      = ({ regIntDemo with executablePath := "app" }, some Err.indexOutOfBounds) := by
  exact trailing_option_consumes_oob regIntDemo "app" ["-n"] false false
    { regIntDemo with executablePath := "app" } "-n" ⟨REQUIRED, "number", Value.vInt 0⟩
    (by decide) (ScanReaches.refl { regIntDemo with executablePath := "app" } 1) rfl
    (by decide) rfl (by decide)

end cliparser
